import Mathlib

/-!
Verification of the multi-tissue methylation heatmap repository.

This file embeds the two data-processing programs of the repository,
`bin/generate_methylation_matrix.py` (the multi-sample matrix assembler) and
`bin/calculate_dmr_methylation.py` (the DMR region aggregator), as pure Lean
functions, and proves or refutes the specification's claims about them.

Conventions of the embedding:
* A bedgraph record of the matrix assembler is modelled at the level of the
  reader's output: chromosome as `String`, coordinates as `Int`, rate as `Rat`.
  The Python field name `end` is a Lean keyword and is rendered `stop`.
* `pandas` missing values (`NaN`, written `NA` by the writer) are `Option.none`.
* A sample whose declared path does not exist is a sample whose `file` field is
  `none`; `pd.read_csv` raising `EmptyDataError` on a file with no rows is the
  `Err.emptyData` outcome, and the `ValueError` raised when `usecols` points
  past the last column of the file is the `Err.badUsecols` outcome.
-/

set_option maxRecDepth 20000

namespace MethMatrix

/-- An interval key `(chr, start, end)`; the Python `end` field is `stop`. -/
structure Key where
  chr : String
  start : Int
  stop : Int
deriving DecidableEq

/-- One record emitted by the reader for one sample: interval key plus rate. -/
structure Rec where
  chr : String
  start : Int
  stop : Int
  rate : Rat
deriving DecidableEq

/-- The interval key of a record. -/
def Rec.key (r : Rec) : Key := ⟨r.chr, r.start, r.stop⟩

/-- Lexicographic strict inequality on character lists by Unicode code point,
the comparison Python applies to the chromosome strings when sorting. -/
def chrLt : List Char → List Char → Bool
  | [], [] => false
  | [], _ :: _ => true
  | _ :: _, [] => false
  | a :: as, b :: bs =>
      if a.toNat < b.toNat then true
      else if b.toNat < a.toNat then false
      else chrLt as bs

/-- Python `str` comparison, on the underlying character lists. -/
def strLt (a b : String) : Bool := chrLt a.toList b.toList

/-- The sort order used by `positions_df.sort_values(['chr', 'start', 'end'])`:
chromosome lexicographic (Python string comparison), then start ascending, then
end ascending. -/
def keyLE (a b : Key) : Prop :=
  strLt a.chr b.chr = true ∨
    (a.chr = b.chr ∧ (a.start < b.start ∨ (a.start = b.start ∧ a.stop ≤ b.stop)))

instance : DecidableRel keyLE := fun a b => by
  unfold keyLE; infer_instance

/-- Pass 1 of `generate_matrix`: the set `all_positions` of interval keys seen
in any sample's bedgraph, modelled as a duplicate-free list.  The chunked read
(`pd.read_csv(..., chunksize=...)`) contributes exactly the keys of all rows of
the file, so the chunking is transparent to the resulting set. -/
def all_positions (files : List (List Rec)) : List Key :=
  (files.flatMap (fun f => f.map Rec.key)).dedup

/-- `positions_df.sort_values(['chr', 'start', 'end'])`: the position universe
sorted by the key order; this list is the matrix's row index. -/
def sortedPositions (files : List (List Rec)) : List Key :=
  List.insertionSort keyLE (all_positions files)

/-- Pass 2 lookup `meth_dict`: the dict comprehension
`{(chrom, start, end): rate for ...}` built in file order, so a later row with
the same key overwrites an earlier one, and `dict.get(key, nan)` is `none` on
absent keys. -/
def meth_dict (recs : List Rec) : Key → Option Rat :=
  recs.foldl (fun d r => Function.update d r.key (some r.rate)) (fun _ => none)

/-- One row of the sample-list CSV: the sample name and, when the declared
bedgraph path exists, the parsed contents of the bedgraph file (`none` models a
path for which `os.path.isfile` is false). -/
structure Sample where
  name : String
  file : Option (List Rec)
deriving DecidableEq

/-- The assembled matrix: the sorted row index and, per sample in input order,
the sample's column of cells aligned with the rows (`none` is the `NA` cell). -/
structure MatrixOut where
  rows : List Key
  cols : List (String × List (Option Rat))
deriving DecidableEq

/-- Fatal outcomes of a run, all reached through `sys.exit(1)`:
a declared bedgraph path that does not exist, `pandas.errors.EmptyDataError`
from reading a file with no rows, and the `ValueError` raised when `usecols`
names a column past the end of the file. -/
inductive Err where
  | fileNotFound
  | emptyData
  | badUsecols
deriving DecidableEq

instance {ε α : Type} [DecidableEq ε] [DecidableEq α] : DecidableEq (Except ε α) := fun a b =>
  match a, b with
  | .ok x, .ok y =>
      if h : x = y then .isTrue (by rw [h]) else .isFalse (fun hc => h (Except.ok.inj hc))
  | .error x, .error y =>
      if h : x = y then .isTrue (by rw [h]) else .isFalse (fun hc => h (Except.error.inj hc))
  | .ok _, .error _ => .isFalse (fun hc => Except.noConfusion hc)
  | .error _, .ok _ => .isFalse (fun hc => Except.noConfusion hc)

/-- The `generate_matrix` run over the parsed sample list.  In source order:
the path-existence check over every sample (before any bedgraph is opened),
Pass 1 (chunked reads, which raise `EmptyDataError` on a file with no rows,
collecting `all_positions`), the sort, and Pass 2 (per-sample `meth_dict`
lookups mapped over the sorted rows).  `.ok` carries the matrix handed to
`to_csv`; `.error` means `sys.exit(1)` fired with no output written. -/
def generate_matrix (samples : List Sample) : Except Err MatrixOut :=
  if samples.any (fun s => s.file.isNone) then .error .fileNotFound
  else if samples.any (fun s => (s.file.getD []).isEmpty) then .error .emptyData
  else
    let files := samples.map (fun s => s.file.getD [])
    let rows := sortedPositions files
    .ok { rows := rows
          cols := samples.map (fun s =>
            (s.name, rows.map (fun k => meth_dict (s.file.getD []) k))) }

/-- The multiset of interval keys emitted by every sample's reader, in the
order the samples are listed and their rows are read; reordering samples or
rows permutes this list. -/
def emittedKeys (samples : List Sample) : List Key :=
  (samples.map (fun s => s.file.getD [])).flatMap (fun f => f.map Rec.key)

/-- Sample data for witnesses: the concrete scenario of the spec, sample A with
rows `chr1 100 200 0.5` and `chr1 300 400 0.8`, sample B with `chr1 100 200 0.9`. -/
def rA : Rec := ⟨"chr1", 100, 200, 1/2⟩

/-- Second row of sample A. -/
def rB : Rec := ⟨"chr1", 300, 400, 4/5⟩

/-- The single row of sample B. -/
def rC : Rec := ⟨"chr1", 100, 200, 9/10⟩

/-- Witness sample A. -/
def sampleA : Sample := ⟨"A", some [rA, rB]⟩

/-- Witness sample B. -/
def sampleB : Sample := ⟨"B", some [rC]⟩

/-!
## Raw tab-separated level: `pandas` parsing, `calculate_dmr_methylation.py`

The second half embeds the programs below the reader abstraction, at the level
of tab-separated text fields, which is where numeric coercion, column
selection (`usecols`), short-row `NaN` padding and `groupby` key handling
live.  A file is a `List (List String)` of rows of fields.
-/

/-- Value of a nonempty all-digit character list. -/
def digitsVal (l : List Char) : Option Nat :=
  if l ≠ [] ∧ l.all Char.isDigit then
    some (l.foldl (fun a c => 10 * a + (c.toNat - 48)) 0)
  else none

/-- Split a character list at the first `.`, keeping the remainder. -/
def splitDot : List Char → List Char × Option (List Char)
  | [] => ([], none)
  | c :: cs =>
      if c = '.' then ([], some cs)
      else
        let p := splitDot cs
        (c :: p.1, p.2)

/-- Numeric parsing of one field, as `pandas` type inference and `to_numeric`
accept it, restricted to the unsigned decimal numerals (`123`, `0.5`, `1.`,
`.5`) that appear in these files; any other field fails to coerce.  A second
dot or a non-digit character makes the parse fail, as `float()` does. -/
def parseNum (s : String) : Option Rat :=
  match splitDot s.toList with
  | (ip, none) => (digitsVal ip).map (fun n => (n : Rat))
  | (ip, some fp) =>
      if ip = [] ∧ fp = [] then none
      else
        match (if ip = [] then some 0 else digitsVal ip),
              (if fp = [] then some 0 else digitsVal fp) with
        | some a, some b => some ((a : Rat) + (b : Rat) / ((10 : Rat) ^ fp.length))
        | _, _ => none

/-- One typed cell of a parsed `DataFrame` column: missing (`NaN`), numeric,
or text (`object` dtype). -/
inductive Cell where
  | na
  | num (q : Rat)
  | str (s : String)
deriving DecidableEq

/-- Whether a cell is the missing value. -/
def Cell.isNa : Cell → Bool
  | .na => true
  | _ => false

/-- Whether a cell holds uncoerced text. -/
def Cell.isStr : Cell → Bool
  | .str _ => true
  | _ => false

/-- Field `j` of a selected raw row; `none` doubles as the `NaN` padding that
`pandas` inserts when a data row is shorter than the expected column count. -/
def rawC (r : List (Option String)) (j : Nat) : Option String := (r[j]?).getD none

/-- Cell `j` of a typed row; positions past the end read as `NaN`. -/
def getC (r : List Cell) (j : Nat) : Cell := (r[j]?).getD .na

/-- `usecols` selection of one data row: the requested file positions, with
missing trailing fields as `NaN`. -/
def selectRow (useCols : List Nat) (row : List String) : List (Option String) :=
  useCols.map (fun i => row[i]?)

/-- `usecols` selection over the whole file. -/
def selTable (useCols : List Nat) (rows : List (List String)) :
    List (List (Option String)) :=
  rows.map (selectRow useCols)

/-- The number of columns of the file as the tokenizer sees it (the widest
row). -/
def fileWidth (rows : List (List String)) : Nat :=
  rows.foldl (fun a r => max a r.length) 0

/-- `read_csv` dtype inference for selected column `j`: the column becomes
numeric exactly when every present entry coerces; otherwise the whole column
keeps its text. -/
def colNumeric (tbl : List (List (Option String))) (j : Nat) : Bool :=
  tbl.all (fun r =>
    match rawC r j with
    | none => true
    | some s => (parseNum s).isSome)

/-- Typing of one raw field given its column's inferred dtype. -/
def typeCell (isNum : Bool) (c : Option String) : Cell :=
  match c with
  | none => .na
  | some s =>
      if isNum then
        match parseNum s with
        | some q => .num q
        | none => .str s
      else .str s

/-- The typed `DataFrame` produced by `read_csv` from the selected columns. -/
def typeTable (tbl : List (List (Option String))) (ncols : Nat) : List (List Cell) :=
  tbl.map (fun r => (List.range ncols).map (fun j => typeCell (colNumeric tbl j) (rawC r j)))

/-- `pd.to_numeric(col, errors='coerce')` on one cell: text re-parses or
becomes `NaN`; numeric and missing cells pass through. -/
def coerceCell : Cell → Cell
  | .str s =>
      match parseNum s with
      | some q => .num q
      | none => .na
  | c => c

/-- The numeric-validation loop of `calculate_dmr_methylation.main`: for each
declared numeric column, if its dtype is already numeric nothing happens;
otherwise the column is coerced with `to_numeric(errors='coerce')` and rows
left `NaN` in that column are dropped (`dropna(subset=[col])`). -/
def validate (isNum : Nat → Bool) (numIdx : List Nat) (tbl : List (List Cell)) :
    List (List Cell) :=
  numIdx.foldl (fun t j =>
    if isNum j then t
    else (t.map (fun r => r.set j (coerceCell (getC r j)))).filter
      (fun r => !(getC r j).isNa)) tbl

/-- A DMR group key `(chr_dmr, start_dmr, end_dmr)` as typed cells. -/
structure DKey where
  chr : Cell
  start : Cell
  stop : Cell
deriving DecidableEq

/-- The DMR key read off a typed row at the given column positions. -/
def dkeyOf (a b c : Nat) (r : List Cell) : DKey := ⟨getC r a, getC r b, getC r c⟩

/-- A group key `groupby` keeps: all three components present (`groupby`
drops `NaN` keys, its `dropna=True` default). -/
def DKey.ok (k : DKey) : Bool := !k.chr.isNa && !k.start.isNa && !k.stop.isNa

/-- Cell comparison used when `groupby(sort=True)` sorts the group keys:
numeric cells by value, text cells lexicographically; across kinds a fixed
class order stands in for `pandas`' fallback ordering of mixed-type keys. -/
def cellLEb : Cell → Cell → Bool
  | .na, _ => true
  | .num _, .na => false
  | .num a, .num b => decide (a ≤ b)
  | .num _, .str _ => true
  | .str _, .na => false
  | .str _, .num _ => false
  | .str a, .str b => !(strLt b a)

/-- Strict version of `cellLEb`. -/
def cellLTb (a b : Cell) : Bool := !(cellLEb b a)

/-- Ascending order on DMR keys: `chr_dmr`, then `start_dmr`, then `end_dmr`. -/
def dkeyLE (a b : DKey) : Prop :=
  cellLTb a.chr b.chr = true ∨
    (a.chr = b.chr ∧ (cellLTb a.start b.start = true ∨
      (a.start = b.start ∧ cellLEb a.stop b.stop = true)))

instance : DecidableRel dkeyLE := fun a b => by
  unfold dkeyLE; infer_instance

/-- The distinct DMR keys of the validated table with all components present,
ascending — the row index `groupby(['chr_dmr','start_dmr','end_dmr'])`
produces with its default `sort=True`, `dropna=True`. -/
def groupKeys (a b c : Nat) (t : List (List Cell)) : List DKey :=
  List.insertionSort dkeyLE (((t.map (dkeyOf a b c)).filter DKey.ok).dedup)

/-- The member rows of one DMR group. -/
def groupRows (a b c : Nat) (t : List (List Cell)) (k : DKey) : List (List Cell) :=
  t.filter (fun r => decide (dkeyOf a b c r = k))

/-- Numeric reading of a cell inside a column sum; `NaN` contributes nothing
(`sum` skips `NaN`), and text never reaches a summed column. -/
def cellRat : Cell → Rat
  | .num q => q
  | _ => 0

/-- `agg('sum')` of column `j` over a group. -/
def sumCol (rows : List (List Cell)) (j : Nat) : Rat :=
  rows.foldl (fun a r => a + cellRat (getC r j)) 0

/-- The present numeric values of column `j` over a group. -/
def colVals (rows : List (List Cell)) (j : Nat) : List Rat :=
  rows.filterMap (fun r =>
    match getC r j with
    | .num q => some q
    | _ => none)

/-- `agg('mean')` of column `j` over a group: mean of the present values, and
`NaN` when every value is missing. -/
def meanCell (rows : List (List Cell)) (j : Nat) : Cell :=
  let vals := colVals rows j
  if vals.length = 0 then .na else .num (vals.sum / (vals.length : Rat))

/-- `usecols` of `count` mode: file positions 0-2 and 4-8; the file's fourth
column (position 3) is skipped and the ninth (position 8) is read. -/
def countUse : List Nat := [0, 1, 2, 4, 5, 6, 7, 8]

/-- Positions of `numeric_cols` of `count` mode among the 8 selected columns
(`start`, `end`, `meth_count`, `unmeth_count`, `start_dmr`, `end_dmr`). -/
def countNumIdx : List Nat := [1, 2, 3, 4, 6, 7]

/-- `usecols` of `rate` mode: the first seven file positions. -/
def rateUse : List Nat := [0, 1, 2, 3, 4, 5, 6]

/-- Positions of `numeric_cols` of `rate` mode among the 7 selected columns. -/
def rateNumIdx : List Nat := [1, 2, 3, 5, 6]

/-- The validated typed table of `count` mode. -/
def countValid (rows : List (List String)) : List (List Cell) :=
  validate (colNumeric (selTable countUse rows)) countNumIdx
    (typeTable (selTable countUse rows) 8)

/-- The validated typed table of `rate` mode. -/
def rateValid (rows : List (List String)) : List (List Cell) :=
  validate (colNumeric (selTable rateUse rows)) rateNumIdx
    (typeTable (selTable rateUse rows) 7)

/-- `count`-mode aggregation: per DMR key, sum `meth_count` (selected column
3) and `unmeth_count` (column 4), then
`np.where(total > 0, meth_sum / total, 0)`. -/
def countAgg (t : List (List Cell)) : List (DKey × Rat) :=
  (groupKeys 5 6 7 t).map (fun k =>
    let g := groupRows 5 6 7 t k
    let M := sumCol g 3
    let U := sumCol g 4
    (k, if 0 < M + U then M / (M + U) else 0))

/-- `rate`-mode aggregation: per DMR key, mean of `meth_rate` (selected
column 3). -/
def rateAgg (t : List (List Cell)) : List (DKey × Cell) :=
  (groupKeys 4 5 6 t).map (fun k => (k, meanCell (groupRows 4 5 6 t k) 3))

/-- The `calculate_dmr_methylation` run in `count` mode: `EmptyDataError` on a
file with no rows, the `usecols` bounds error when the file is narrower than
nine columns, else the aggregated output rows handed to `to_csv`. -/
def runCount (rows : List (List String)) : Except Err (List (DKey × Rat)) :=
  if rows.isEmpty then .error .emptyData
  else if countUse.any (fun i => fileWidth rows ≤ i) then .error .badUsecols
  else .ok (countAgg (countValid rows))

/-- The `calculate_dmr_methylation` run in `rate` mode. -/
def runRate (rows : List (List String)) : Except Err (List (DKey × Cell)) :=
  if rows.isEmpty then .error .emptyData
  else if rateUse.any (fun i => fileWidth rows ≤ i) then .error .badUsecols
  else .ok (rateAgg (rateValid rows))

/-- The typed 4-column table `generate_matrix` reads from one bedgraph, at the
raw level: same `read_csv` inference, no `usecols`, no numeric validation. -/
def matTyped (rows : List (List String)) : List (List Cell) :=
  typeTable (selTable [0, 1, 2, 3] rows) 4

/-- Pass 1 of `generate_matrix` at the raw level: the union of `(chr, start,
end)` cell triples over all files, uncoerced. -/
def matKeysRaw (files : List (List (List String))) : List DKey :=
  (files.flatMap (fun f => (matTyped f).map (dkeyOf 0 1 2))).dedup

/-- Pass 2 lookup of `generate_matrix` at the raw level: the per-sample dict
keyed by the uncoerced cell triple. -/
def matDictRaw (f : List (List String)) : DKey → Option Cell :=
  (matTyped f).foldl
    (fun d r => Function.update d (dkeyOf 0 1 2 r) (some (getC r 3)))
    (fun _ => none)

/-- A cell position neither text nor missing. -/
def goodAt (j : Nat) (r : List Cell) : Prop :=
  (getC r j).isStr = false ∧ (getC r j).isNa = false

theorem chrLt_irrefl : ∀ l : List Char, chrLt l l = false := by
  intro l
  induction l with
  | nil => rfl
  | cons a as ih => simp [chrLt, ih]

theorem chrLt_trans : ∀ {a b c : List Char},
    chrLt a b = true → chrLt b c = true → chrLt a c = true := by
  intro a
  induction a with
  | nil =>
      intro b c h1 h2
      cases b with
      | nil => simp [chrLt] at h1
      | cons y ys =>
          cases c with
          | nil => simp [chrLt] at h2
          | cons z zs => rfl
  | cons x xs ih =>
      intro b c h1 h2
      cases b with
      | nil => simp [chrLt] at h1
      | cons y ys =>
          cases c with
          | nil => simp [chrLt] at h2
          | cons z zs =>
              simp only [chrLt] at h1 h2 ⊢
              by_cases hxy : x.toNat < y.toNat
              · by_cases hyz : y.toNat < z.toNat
                · simp [Nat.lt_trans hxy hyz]
                · simp only [if_pos hxy] at h1
                  simp only [if_neg hyz] at h2
                  by_cases hzy : z.toNat < y.toNat
                  · simp [hzy] at h2
                  · have hyz2 : y.toNat = z.toNat :=
                      Nat.le_antisymm (Nat.le_of_not_lt hzy) (Nat.le_of_not_lt hyz)
                    simp [hyz2 ▸ hxy]
              · simp only [if_neg hxy] at h1
                by_cases hyx : y.toNat < x.toNat
                · simp [hyx] at h1
                · simp only [if_neg hyx] at h1
                  have hxy2 : x.toNat = y.toNat :=
                    Nat.le_antisymm (Nat.le_of_not_lt hyx) (Nat.le_of_not_lt hxy)
                  by_cases hyz : y.toNat < z.toNat
                  · simp [hxy2 ▸ hyz]
                  · simp only [if_neg hyz] at h2
                    by_cases hzy : z.toNat < y.toNat
                    · simp [hzy] at h2
                    · simp only [if_neg hzy] at h2
                      have hne : ¬ x.toNat < z.toNat := by
                        intro hc
                        exact hyz (hxy2 ▸ hc)
                      have hne2 : ¬ z.toNat < x.toNat := by
                        intro hc
                        exact hzy (hxy2 ▸ hc)
                      simp [hne, hne2, ih h1 h2]

theorem chrLt_conn : ∀ {a b : List Char},
    chrLt a b = false → chrLt b a = false → a = b := by
  intro a
  induction a with
  | nil =>
      intro b h1 _
      cases b with
      | nil => rfl
      | cons y ys => simp [chrLt] at h1
  | cons x xs ih =>
      intro b h1 h2
      cases b with
      | nil => simp [chrLt] at h2
      | cons y ys =>
          simp only [chrLt] at h1 h2
          by_cases hxy : x.toNat < y.toNat
          · simp [hxy] at h1
          · by_cases hyx : y.toNat < x.toNat
            · simp [hyx] at h2
            · simp only [if_neg hxy, if_neg hyx] at h1 h2
              have hx : x = y := by
                have hn : x.toNat = y.toNat :=
                  Nat.le_antisymm (Nat.le_of_not_lt hyx) (Nat.le_of_not_lt hxy)
                exact Char.eq_of_val_eq (UInt32.toNat.inj hn)
              rw [hx, ih h1 h2]

theorem chrLt_asymm {a b : List Char} (h : chrLt a b = true) : chrLt b a = false := by
  by_contra hc
  have h2 : chrLt b a = true := by
    cases hcb : chrLt b a with
    | true => rfl
    | false => exact absurd hcb hc
  have := chrLt_trans h h2
  rw [chrLt_irrefl] at this
  exact Bool.false_ne_true this

theorem strLt_inj {a b : String} (h1 : strLt a b = false) (h2 : strLt b a = false) : a = b := by
  have h := chrLt_conn h1 h2
  cases a; cases b
  exact congrArg String.mk (by simpa [String.toList] using h)

theorem strLt_asymm {a b : String} (h : strLt a b = true) : strLt b a = false :=
  chrLt_asymm h

theorem strLt_self (a : String) : strLt a a = false := chrLt_irrefl _

theorem keyLE_total (a b : Key) : keyLE a b ∨ keyLE b a := by
  unfold keyLE
  by_cases h : strLt a.chr b.chr = true
  · exact Or.inl (Or.inl h)
  · by_cases h2 : strLt b.chr a.chr = true
    · exact Or.inr (Or.inl h2)
    · have he : a.chr = b.chr :=
        strLt_inj (Bool.eq_false_iff.mpr h) (Bool.eq_false_iff.mpr h2)
      rcases lt_trichotomy a.start b.start with h3 | h3 | h3
      · exact Or.inl (Or.inr ⟨he, Or.inl h3⟩)
      · rcases le_total a.stop b.stop with h4 | h4
        · exact Or.inl (Or.inr ⟨he, Or.inr ⟨h3, h4⟩⟩)
        · exact Or.inr (Or.inr ⟨he.symm, Or.inr ⟨h3.symm, h4⟩⟩)
      · exact Or.inr (Or.inr ⟨he.symm, Or.inl h3⟩)

theorem keyLE_trans {a b c : Key} (hab : keyLE a b) (hbc : keyLE b c) : keyLE a c := by
  unfold keyLE at *
  rcases hab with h | ⟨he, h⟩
  · rcases hbc with h2 | ⟨he2, _⟩
    · exact Or.inl (chrLt_trans h h2)
    · exact Or.inl (he2 ▸ h)
  · rcases hbc with h2 | ⟨he2, h3⟩
    · exact Or.inl (he ▸ h2)
    · refine Or.inr ⟨he.trans he2, ?_⟩
      rcases h with h | ⟨hs, h⟩
      · rcases h3 with h3 | ⟨hs3, _⟩
        · exact Or.inl (h.trans h3)
        · exact Or.inl (hs3 ▸ h)
      · rcases h3 with h3 | ⟨hs3, h4⟩
        · exact Or.inl (hs ▸ h3)
        · exact Or.inr ⟨hs.trans hs3, h.trans h4⟩

theorem keyLE_antisymm {a b : Key} (hab : keyLE a b) (hba : keyLE b a) : a = b := by
  unfold keyLE at *
  rcases hab with h | ⟨he, h⟩
  · rcases hba with h2 | ⟨he2, _⟩
    · exact absurd h2 (by rw [strLt_asymm h]; exact Bool.false_ne_true)
    · exact absurd h (by rw [he2, strLt_self]; exact Bool.false_ne_true)
  · rcases hba with h2 | ⟨he2, h3⟩
    · exact absurd h2 (by rw [he, strLt_self]; exact Bool.false_ne_true)
    · rcases h with h | ⟨hs, h⟩
      · rcases h3 with h3 | ⟨hs3, _⟩
        · exact absurd (h.trans h3) (lt_irrefl _)
        · exact absurd h (hs3 ▸ lt_irrefl _)
      · rcases h3 with h3 | ⟨hs3, h4⟩
        · exact absurd h3 (hs ▸ lt_irrefl _)
        · cases a; cases b
          simp_all
          exact le_antisymm h h4

theorem mem_all_positions {files : List (List Rec)} {k : Key} :
    k ∈ all_positions files ↔ ∃ f ∈ files, ∃ r ∈ f, r.key = k := by
  simp [all_positions, List.mem_dedup, List.mem_flatMap]

theorem mem_sortedPositions {files : List (List Rec)} {k : Key} :
    k ∈ sortedPositions files ↔ ∃ f ∈ files, ∃ r ∈ f, r.key = k := by
  rw [sortedPositions, List.mem_insertionSort, mem_all_positions]

theorem nodup_sortedPositions (files : List (List Rec)) :
    (sortedPositions files).Nodup :=
  ((List.perm_insertionSort keyLE (all_positions files)).nodup_iff).mpr
    (List.nodup_dedup _)

theorem meth_dict_append (recs : List Rec) (r : Rec) :
    meth_dict (recs ++ [r]) = Function.update (meth_dict recs) r.key (some r.rate) := by
  simp [meth_dict, List.foldl_append]

theorem meth_dict_not_mem {recs : List Rec} {k : Key}
    (h : ∀ r ∈ recs, r.key ≠ k) : meth_dict recs k = none := by
  induction recs using List.reverseRecOn with
  | nil => rfl
  | append_singleton l r ih =>
      rw [meth_dict_append, Function.update_apply]
      rw [if_neg (fun he => h r (by simp) he.symm)]
      exact ih (fun x hx => h x (by simp [hx]))

theorem meth_dict_last {l1 l2 : List Rec} {r : Rec} {k : Key}
    (hr : r.key = k) (h2 : ∀ x ∈ l2, x.key ≠ k) :
    meth_dict (l1 ++ r :: l2) k = some r.rate := by
  induction l2 using List.reverseRecOn with
  | nil =>
      have : l1 ++ [r] = l1 ++ r :: [] := rfl
      rw [← this, meth_dict_append, hr, Function.update_same]
  | append_singleton l2 x ih =>
      have : l1 ++ r :: (l2 ++ [x]) = (l1 ++ r :: l2) ++ [x] := by simp
      rw [this, meth_dict_append, Function.update_apply]
      rw [if_neg (fun he => h2 x (by simp) he.symm)]
      exact ih (fun y hy => h2 y (by simp [hy]))

theorem generate_matrix_ok {samples : List Sample} {m : MatrixOut}
    (h : generate_matrix samples = .ok m) :
    (∀ s ∈ samples, ∃ recs, s.file = some recs ∧ recs ≠ []) ∧
    m.rows = sortedPositions (samples.map (fun s => s.file.getD [])) ∧
    m.cols = samples.map (fun s =>
      (s.name, m.rows.map (fun k => meth_dict (s.file.getD []) k))) := by
  unfold generate_matrix at h
  split at h
  · exact absurd h (by simp)
  · split at h
    · exact absurd h (by simp)
    · rename_i hnone hempty
      simp only [List.any_eq_true, Option.isNone_iff_eq_none, not_exists, not_and,
        List.isEmpty_iff] at hnone hempty
      simp only [Except.ok.injEq] at h
      subst h
      refine ⟨fun s hs => ?_, rfl, rfl⟩
      push_neg at hnone hempty
      rcases Option.ne_none_iff_exists'.mp (hnone s hs) with ⟨recs, hr⟩
      refine ⟨recs, hr, fun he => hempty s hs ?_⟩
      rw [hr, he]; rfl

theorem all_positions_perm {samples samples' : List Sample}
    (h : List.Perm (emittedKeys samples) (emittedKeys samples')) :
    sortedPositions (samples.map (fun s => s.file.getD [])) =
      sortedPositions (samples'.map (fun s => s.file.getD [])) := by
  haveI : IsTotal Key keyLE := ⟨keyLE_total⟩
  haveI : IsTrans Key keyLE := ⟨fun _ _ _ => keyLE_trans⟩
  haveI : IsAntisymm Key keyLE := ⟨fun _ _ => keyLE_antisymm⟩
  exact List.eq_of_perm_of_sorted
    ((List.perm_insertionSort keyLE _).trans
      ((h.dedup).trans (List.perm_insertionSort keyLE _).symm))
    (List.sorted_insertionSort keyLE _)
    (List.sorted_insertionSort keyLE _)

/-- C1: a key is a row of the assembled matrix iff some sample's reader emitted
a record with that key, and no key appears as a row more than once. -/
theorem c1_universe_completeness (samples : List Sample) (m : MatrixOut)
    (h : generate_matrix samples = .ok m) :
    (∀ k : Key,
      (k ∈ m.rows ↔ ∃ s ∈ samples, ∃ recs, s.file = some recs ∧ ∃ r ∈ recs, r.key = k)) ∧
    m.rows.Nodup := by
  obtain ⟨hall, hrows, -⟩ := generate_matrix_ok h
  rw [hrows]
  refine ⟨fun k => ?_, nodup_sortedPositions _⟩
  rw [mem_sortedPositions]
  constructor
  · rintro ⟨f, hf, r, hr, hk⟩
    rcases List.mem_map.mp hf with ⟨s, hs, rfl⟩
    rcases hall s hs with ⟨recs, hrecs, -⟩
    exact ⟨s, hs, recs, hrecs, r, by rwa [hrecs] at hr, hk⟩
  · rintro ⟨s, hs, recs, hrecs, r, hr, hk⟩
    exact ⟨s.file.getD [], List.mem_map.mpr ⟨s, hs, rfl⟩, r, by rw [hrecs]; exact hr, hk⟩

/-- C1 witness: the two-sample scenario of the spec evaluated concretely. -/
theorem c1_witness :
    ((⟨"chr1", 100, 200⟩ : Key) ∈
        ({ rows := [⟨"chr1", 100, 200⟩, ⟨"chr1", 300, 400⟩],
           cols := [("A", [some (1/2), some (4/5)]), ("B", [some (9/10), none])] } :
          MatrixOut).rows) ∧
    ({ rows := [⟨"chr1", 100, 200⟩, ⟨"chr1", 300, 400⟩],
       cols := [("A", [some (1/2), some (4/5)]), ("B", [some (9/10), none])] } :
        MatrixOut).rows.Nodup := by
  have h := c1_universe_completeness [sampleA, sampleB]
    { rows := [⟨"chr1", 100, 200⟩, ⟨"chr1", 300, 400⟩],
      cols := [("A", [some (1/2), some (4/5)]), ("B", [some (9/10), none])] }
    (by with_unfolding_all decide)
  exact ⟨(h.1 ⟨"chr1", 100, 200⟩).mpr
    ⟨sampleA, by simp, [rA, rB], rfl, rA, by simp, rfl⟩, h.2⟩

/-- C2: for every row key `k` of the assembled matrix and every sample column,
the cell holds `meth_dict recs k`; that lookup is the missing marker when the
sample's file has no record with key `k`, and otherwise the rate of the last
record read with key `k` (last-write-wins on duplicates). -/
theorem c2_cell_semantics (samples : List Sample) (m : MatrixOut) (i : Nat)
    (s : Sample) (recs : List Rec) (k : Key)
    (h : generate_matrix samples = .ok m)
    (hs : samples[i]? = some s) (hf : s.file = some recs) :
    (∀ (j : Nat) (col : String × List (Option Rat)), m.cols[i]? = some col →
      m.rows[j]? = some k → col.2[j]? = some (meth_dict recs k)) ∧
    ((∀ r ∈ recs, r.key ≠ k) → meth_dict recs k = none) ∧
    (∀ l1 r l2, recs = l1 ++ r :: l2 → r.key = k → (∀ x ∈ l2, x.key ≠ k) →
      meth_dict recs k = some r.rate) := by
  obtain ⟨-, -, hcols⟩ := generate_matrix_ok h
  refine ⟨?_, meth_dict_not_mem, ?_⟩
  · intro j col hcol hrow
    rw [hcols, List.getElem?_map, hs] at hcol
    simp only [Option.map_some', Option.some.injEq] at hcol
    rw [← hcol]
    simp only [hf, Option.getD_some, List.getElem?_map, hrow, Option.map_some']
  · intro l1 r l2 hrecs hr h2
    rw [hrecs]
    exact meth_dict_last hr h2

/-- C2 witness: in the concrete two-sample run, sample B's column holds its own
rate at the shared key, and the missing key `chr1 300 400` is the `NA` cell;
a duplicated key in one file resolves to the last row read. -/
theorem c2_witness :
    meth_dict [rC] ⟨"chr1", 100, 200⟩ = some (9/10) ∧
    meth_dict [rC] ⟨"chr1", 300, 400⟩ = none ∧
    meth_dict [rC, rA] ⟨"chr1", 100, 200⟩ = some (1/2) := by
  have h := c2_cell_semantics [sampleA, sampleB]
    { rows := [⟨"chr1", 100, 200⟩, ⟨"chr1", 300, 400⟩],
      cols := [("A", [some (1/2), some (4/5)]), ("B", [some (9/10), none])] }
    1 sampleB [rC] ⟨"chr1", 100, 200⟩
    (by with_unfolding_all decide) rfl rfl
  refine ⟨h.2.2 [] rC [] rfl rfl (by intro x hx; cases hx), ?_, ?_⟩
  · have h2 := c2_cell_semantics [sampleA, sampleB]
      { rows := [⟨"chr1", 100, 200⟩, ⟨"chr1", 300, 400⟩],
        cols := [("A", [some (1/2), some (4/5)]), ("B", [some (9/10), none])] }
      1 sampleB [rC] ⟨"chr1", 300, 400⟩
      (by with_unfolding_all decide) rfl rfl
    exact h2.2.1 (by intro r hr; simp at hr; subst hr; with_unfolding_all decide)
  · have h3 := c2_cell_semantics [⟨"B2", some [rC, rA]⟩]
      { rows := [⟨"chr1", 100, 200⟩],
        cols := [("B2", [some (1/2)])] }
      0 ⟨"B2", some [rC, rA]⟩ [rC, rA] ⟨"chr1", 100, 200⟩
      (by with_unfolding_all decide) rfl rfl
    exact h3.2.2 [rC] rA [] rfl rfl (by intro x hx; cases hx)

/-- C3: the rows of the assembled matrix are adjacent-sorted by chromosome
(lexicographic), then start, then end; and the row list is unchanged by any
reordering of the samples or of the rows inside the source files (any input
whose emitted key multiset is a permutation of the original's yields the
identical row list). -/
theorem c3_row_order (samples samples' : List Sample) (m m' : MatrixOut)
    (h : generate_matrix samples = .ok m) (h' : generate_matrix samples' = .ok m')
    (hperm : List.Perm (emittedKeys samples) (emittedKeys samples')) :
    m.rows.Chain' keyLE ∧ m.rows = m'.rows := by
  obtain ⟨-, hrows, -⟩ := generate_matrix_ok h
  obtain ⟨-, hrows', -⟩ := generate_matrix_ok h'
  constructor
  · rw [hrows]
    haveI : IsTotal Key keyLE := ⟨keyLE_total⟩
    haveI : IsTrans Key keyLE := ⟨fun _ _ _ => keyLE_trans⟩
    exact List.Pairwise.chain' (List.sorted_insertionSort keyLE _)
  · rw [hrows, hrows']
    exact all_positions_perm hperm

/-- C3 witness: listing the two samples of the concrete scenario in either
order yields the same sorted row list. -/
theorem c3_witness :
    ({ rows := [⟨"chr1", 100, 200⟩, ⟨"chr1", 300, 400⟩],
       cols := [("A", [some (1/2), some (4/5)]), ("B", [some (9/10), none])] } :
      MatrixOut).rows.Chain' keyLE ∧
    ({ rows := [⟨"chr1", 100, 200⟩, ⟨"chr1", 300, 400⟩],
       cols := [("A", [some (1/2), some (4/5)]), ("B", [some (9/10), none])] } :
      MatrixOut).rows =
    ({ rows := [⟨"chr1", 100, 200⟩, ⟨"chr1", 300, 400⟩],
       cols := [("B", [some (9/10), none]), ("A", [some (1/2), some (4/5)])] } :
      MatrixOut).rows :=
  c3_row_order [sampleA, sampleB] [sampleB, sampleA]
    { rows := [⟨"chr1", 100, 200⟩, ⟨"chr1", 300, 400⟩],
      cols := [("A", [some (1/2), some (4/5)]), ("B", [some (9/10), none])] }
    { rows := [⟨"chr1", 100, 200⟩, ⟨"chr1", 300, 400⟩],
      cols := [("B", [some (9/10), none]), ("A", [some (1/2), some (4/5)])] }
    (by with_unfolding_all decide) (by with_unfolding_all decide)
    (by
      have e1 : emittedKeys [sampleA, sampleB] =
          [⟨"chr1", 100, 200⟩, ⟨"chr1", 300, 400⟩, ⟨"chr1", 100, 200⟩] := by
        with_unfolding_all decide
      have e2 : emittedKeys [sampleB, sampleA] =
          [⟨"chr1", 100, 200⟩, ⟨"chr1", 100, 200⟩, ⟨"chr1", 300, 400⟩] := by
        with_unfolding_all decide
      rw [e1, e2]
      exact List.Perm.cons _ (List.Perm.swap _ _ _))

/-- C5 counterexample: with an empty sample list the position universe after
Pass 1 is empty, yet the run does not fail: it succeeds and hands a zero-row,
zero-sample-column matrix to the writer (the output file is written with only
the `chr`/`start`/`end` header). -/
theorem c5_counterexample :
    all_positions ([] : List (List Rec)) = [] ∧
    generate_matrix [] = .ok { rows := [], cols := [] } :=
  ⟨rfl, rfl⟩

/-- C5 as amended: the only way the universe can be empty after Pass 1
completes is an empty sample list, and then a zero-row matrix is written
rather than failing.  With at least one declared sample a successful run
always has at least one row, because a sample whose existing file holds no
rows aborts the run during reading (`EmptyDataError`), before any output. -/
theorem c5_empty_universe (samples : List Sample) :
    (∀ m, samples ≠ [] → generate_matrix samples = .ok m → m.rows ≠ []) ∧
    ((∃ s ∈ samples, s.file = some []) → ∀ m, generate_matrix samples ≠ .ok m) := by
  constructor
  · intro m hne hok
    obtain ⟨hall, hrows, -⟩ := generate_matrix_ok hok
    cases samples with
    | nil => exact absurd rfl hne
    | cons s0 rest =>
        obtain ⟨recs, hrecs, hrne⟩ := hall s0 (by simp)
        cases recs with
        | nil => exact absurd rfl hrne
        | cons r0 tl =>
            intro hnil
            have : r0.key ∈ m.rows := by
              rw [hrows, mem_sortedPositions]
              exact ⟨(s0.file.getD []), by simp, r0, by simp [hrecs], rfl⟩
            rw [hnil] at this
            cases this
  · rintro ⟨s, hs, hfile⟩ m hok
    unfold generate_matrix at hok
    split at hok
    · cases hok
    · split at hok
      · cases hok
      · rename_i hempty
        exact hempty (List.any_eq_true.mpr ⟨s, hs, by rw [hfile]; rfl⟩)

/-- C5 amended-claim witness: for a concrete nonempty sample list the
successful run has a nonempty row list, and a sample declaring an existing but
row-less bedgraph makes the run fail. -/
theorem c5_witness :
    ({ rows := [⟨"chr1", 100, 200⟩, ⟨"chr1", 300, 400⟩],
       cols := [("A", [some (1/2), some (4/5)])] } : MatrixOut).rows ≠ [] ∧
    ∀ m, generate_matrix [⟨"A", some ([] : List Rec)⟩] ≠ .ok m := by
  constructor
  · exact (c5_empty_universe [sampleA]).1
      { rows := [⟨"chr1", 100, 200⟩, ⟨"chr1", 300, 400⟩],
        cols := [("A", [some (1/2), some (4/5)])] }
      (by intro hc; cases hc) (by with_unfolding_all decide)
  · exact (c5_empty_universe [⟨"A", some []⟩]).2 ⟨⟨"A", some []⟩, by simp, rfl⟩

/-- C6: when any declared bedgraph path does not exist the whole run fails with
the path-validation error, whatever data any sample's file holds — so no
partial matrix is produced and no sample's rows enter the universe. -/
theorem c6_missing_path (samples : List Sample)
    (h : ∃ s ∈ samples, s.file = none) :
    generate_matrix samples = .error .fileNotFound := by
  unfold generate_matrix
  rcases h with ⟨s, hs, hfile⟩
  rw [if_pos]
  exact List.any_eq_true.mpr ⟨s, hs, by rw [hfile]; rfl⟩

/-- C6 witness: a run whose second sample's path is missing fails up front even
though the first sample's file is present and nonempty. -/
theorem c6_witness :
    generate_matrix [sampleA, ⟨"B", none⟩] = .error .fileNotFound :=
  c6_missing_path [sampleA, ⟨"B", none⟩] ⟨⟨"B", none⟩, by simp, rfl⟩

theorem strLE_trans {a b c : String} (h1 : strLt b a = false) (h2 : strLt c b = false) :
    strLt c a = false := by
  cases hca : strLt c a with
  | false => rfl
  | true =>
      cases hbc : strLt b c with
      | true =>
          have ht : strLt b a = true := chrLt_trans hbc hca
          rw [ht] at h1
          cases h1
      | false =>
          have he : c = b := strLt_inj h2 hbc
          rw [he] at hca
          rw [hca] at h1
          cases h1

theorem cellLEb_refl (a : Cell) : cellLEb a a = true := by
  cases a with
  | na => rfl
  | num q => simp [cellLEb]
  | str s => simp [cellLEb, strLt_self]

theorem cellLEb_total (a b : Cell) : cellLEb a b = true ∨ cellLEb b a = true := by
  cases a <;> cases b <;> simp [cellLEb]
  · exact le_total _ _
  · rename_i x y
    cases h : strLt y x with
    | false => exact Or.inl rfl
    | true => exact Or.inr (strLt_asymm h)

theorem cellLEb_trans {a b c : Cell} (h1 : cellLEb a b = true) (h2 : cellLEb b c = true) :
    cellLEb a c = true := by
  cases a <;> cases b <;> cases c <;> simp_all [cellLEb]
  · exact le_trans h1 h2
  · exact strLE_trans h1 h2

theorem cellLEb_antisymm {a b : Cell} (h1 : cellLEb a b = true) (h2 : cellLEb b a = true) :
    a = b := by
  cases a <;> cases b <;> simp_all [cellLEb]
  · exact le_antisymm h1 h2
  · exact strLt_inj h2 h1

theorem cellLTb_iff {a b : Cell} : cellLTb a b = true ↔ cellLEb b a = false := by
  simp [cellLTb]

theorem cellLTb_trans {a b c : Cell} (h1 : cellLTb a b = true) (h2 : cellLTb b c = true) :
    cellLTb a c = true := by
  rw [cellLTb_iff] at h1 h2 ⊢
  cases hca : cellLEb c a with
  | false => rfl
  | true =>
      rcases cellLEb_total b c with hbc | hcb
      · have := cellLEb_trans hbc hca
        rw [this] at h1
        cases h1
      · rw [hcb] at h2
        cases h2

theorem cellLTb_conn {a b : Cell} (h1 : cellLTb a b = false) (h2 : cellLTb b a = false) :
    a = b := by
  simp only [cellLTb, Bool.not_eq_false'] at h1 h2
  exact cellLEb_antisymm h2 h1

theorem cellLTb_asymm {a b : Cell} (h : cellLTb a b = true) : cellLTb b a = false := by
  rw [cellLTb_iff] at h
  simp only [cellLTb, Bool.not_eq_true]
  rcases cellLEb_total a b with hab | hba
  · rw [hab]; rfl
  · rw [hba] at h; cases h

theorem cellLTb_irrefl (a : Cell) : cellLTb a a = false := by
  simp [cellLTb, cellLEb_refl]

theorem cellLTb_subst_right {a b : Cell} (h : cellLTb a b = true) {c : Cell} (he : b = c) :
    cellLTb a c = true := he ▸ h

theorem dkeyLE_total (a b : DKey) : dkeyLE a b ∨ dkeyLE b a := by
  unfold dkeyLE
  cases h : cellLTb a.chr b.chr with
  | true => exact Or.inl (Or.inl rfl)
  | false =>
      cases h2 : cellLTb b.chr a.chr with
      | true => exact Or.inr (Or.inl rfl)
      | false =>
          have he : a.chr = b.chr := cellLTb_conn h h2
          cases h3 : cellLTb a.start b.start with
          | true => exact Or.inl (Or.inr ⟨he, Or.inl rfl⟩)
          | false =>
              cases h4 : cellLTb b.start a.start with
              | true => exact Or.inr (Or.inr ⟨he.symm, Or.inl rfl⟩)
              | false =>
                  have he2 : a.start = b.start := cellLTb_conn h3 h4
                  rcases cellLEb_total a.stop b.stop with h5 | h5
                  · exact Or.inl (Or.inr ⟨he, Or.inr ⟨he2, h5⟩⟩)
                  · exact Or.inr (Or.inr ⟨he.symm, Or.inr ⟨he2.symm, h5⟩⟩)

theorem dkeyLE_trans {a b c : DKey} (hab : dkeyLE a b) (hbc : dkeyLE b c) : dkeyLE a c := by
  unfold dkeyLE at *
  rcases hab with h | ⟨he, h⟩
  · rcases hbc with h2 | ⟨he2, _⟩
    · exact Or.inl (cellLTb_trans h h2)
    · exact Or.inl (he2 ▸ h)
  · rcases hbc with h2 | ⟨he2, h3⟩
    · exact Or.inl (he ▸ h2)
    · refine Or.inr ⟨he.trans he2, ?_⟩
      rcases h with h | ⟨hs, h⟩
      · rcases h3 with h3 | ⟨hs3, _⟩
        · exact Or.inl (cellLTb_trans h h3)
        · exact Or.inl (hs3 ▸ h)
      · rcases h3 with h3 | ⟨hs3, h4⟩
        · exact Or.inl (hs ▸ h3)
        · exact Or.inr ⟨hs.trans hs3, cellLEb_trans h h4⟩

theorem dkeyLE_antisymm {a b : DKey} (hab : dkeyLE a b) (hba : dkeyLE b a) : a = b := by
  unfold dkeyLE at *
  rcases hab with h | ⟨he, h⟩
  · rcases hba with h2 | ⟨he2, _⟩
    · rw [cellLTb_asymm h] at h2
      cases h2
    · rw [he2, cellLTb_irrefl] at h
      cases h
  · rcases hba with h2 | ⟨he2, h3⟩
    · rw [he, cellLTb_irrefl] at h2
      cases h2
    · rcases h with h | ⟨hs, h⟩
      · rcases h3 with h3 | ⟨hs3, _⟩
        · rw [cellLTb_asymm h] at h3
          cases h3
        · rw [hs3, cellLTb_irrefl] at h
          cases h
      · rcases h3 with h3 | ⟨hs3, h4⟩
        · rw [hs, cellLTb_irrefl] at h3
          cases h3
        · cases a; cases b
          simp_all
          exact cellLEb_antisymm h h4

theorem getC_set_ne {r : List Cell} {i j : Nat} {v : Cell} (h : i ≠ j) :
    getC (r.set i v) j = getC r j := by
  simp [getC, List.getElem?_set_ne h]

theorem getC_set_self {r : List Cell} {j : Nat} {v : Cell} :
    getC (r.set j v) j = v ∨ getC (r.set j v) j = Cell.na := by
  by_cases h : j < r.length
  · exact Or.inl (by simp [getC, List.getElem?_set_self h])
  · refine Or.inr ?_
    rw [List.set_eq_of_length_le (Nat.le_of_not_lt h)]
    simp [getC, List.getElem?_eq_none (Nat.le_of_not_lt h)]

theorem coerceCell_noStr (c : Cell) : (coerceCell c).isStr = false := by
  cases c with
  | na => rfl
  | num q => rfl
  | str s =>
      unfold coerceCell
      cases hq : parseNum s <;> simp [hq, Cell.isStr]

theorem validate_cons (isNum : Nat → Bool) (j0 : Nat) (rest : List Nat)
    (t : List (List Cell)) :
    validate isNum (j0 :: rest) t =
      validate isNum rest
        (if isNum j0 then t
         else (t.map (fun r => r.set j0 (coerceCell (getC r j0)))).filter
           (fun r => !(getC r j0).isNa)) := by
  unfold validate
  rw [List.foldl_cons]

theorem step_noStr {t : List (List Cell)} {j j0 : Nat}
    (ht : ∀ r ∈ t, (getC r j).isStr = false) :
    ∀ r' ∈ (t.map (fun r => r.set j0 (coerceCell (getC r j0)))).filter
        (fun r => !(getC r j0).isNa),
      (getC r' j).isStr = false := by
  intro r' hr'
  rcases List.mem_filter.mp hr' with ⟨hm, -⟩
  rcases List.mem_map.mp hm with ⟨r0, hr0, rfl⟩
  by_cases hjj : j0 = j
  · subst hjj
    rcases getC_set_self (r := r0) (j := j0) (v := coerceCell (getC r0 j0)) with h | h
    · rw [h]; exact coerceCell_noStr _
    · rw [h]; rfl
  · rw [getC_set_ne hjj]
    exact ht r0 hr0

theorem step_good {t : List (List Cell)} {j j0 : Nat}
    (ht : ∀ r ∈ t, goodAt j r) :
    ∀ r' ∈ (t.map (fun r => r.set j0 (coerceCell (getC r j0)))).filter
        (fun r => !(getC r j0).isNa),
      goodAt j r' := by
  intro r' hr'
  rcases List.mem_filter.mp hr' with ⟨hm, hna⟩
  rcases List.mem_map.mp hm with ⟨r0, hr0, rfl⟩
  by_cases hjj : j0 = j
  · subst hjj
    simp only [Bool.not_eq_true'] at hna
    refine ⟨?_, hna⟩
    rcases getC_set_self (r := r0) (j := j0) (v := coerceCell (getC r0 j0)) with h | h
    · rw [h]; exact coerceCell_noStr _
    · rw [h]; rfl
  · rw [goodAt, getC_set_ne hjj]
    exact ht r0 hr0

theorem validate_noStr (isNum : Nat → Bool) (idx : List Nat) (j : Nat) :
    ∀ t : List (List Cell), (∀ r ∈ t, (getC r j).isStr = false) →
      ∀ r ∈ validate isNum idx t, (getC r j).isStr = false := by
  induction idx with
  | nil => intro t ht r hr; exact ht r hr
  | cons j0 rest ih =>
      intro t ht r hr
      rw [validate_cons] at hr
      by_cases hn : isNum j0 = true
      · rw [if_pos hn] at hr
        exact ih t ht r hr
      · rw [if_neg hn] at hr
        exact ih _ (step_noStr ht) r hr

theorem validate_good (isNum : Nat → Bool) (idx : List Nat) (j : Nat) :
    ∀ t : List (List Cell), (∀ r ∈ t, goodAt j r) →
      ∀ r ∈ validate isNum idx t, goodAt j r := by
  induction idx with
  | nil => intro t ht r hr; exact ht r hr
  | cons j0 rest ih =>
      intro t ht r hr
      rw [validate_cons] at hr
      by_cases hn : isNum j0 = true
      · rw [if_pos hn] at hr
        exact ih t ht r hr
      · rw [if_neg hn] at hr
        exact ih _ (step_good ht) r hr

theorem validate_processed (isNum : Nat → Bool) (idx : List Nat) (j : Nat)
    (hj : j ∈ idx) (hnum : isNum j = false) :
    ∀ t : List (List Cell), ∀ r ∈ validate isNum idx t, goodAt j r := by
  induction idx with
  | nil => cases hj
  | cons j0 rest ih =>
      intro t r hr
      rw [validate_cons] at hr
      by_cases hjr : j ∈ rest
      · by_cases hn : isNum j0 = true
        · rw [if_pos hn] at hr
          exact ih hjr t r hr
        · rw [if_neg hn] at hr
          exact ih hjr _ r hr
      · have hj0 : j = j0 := by
          rcases List.mem_cons.mp hj with h | h
          · exact h
          · exact absurd h hjr
        subst hj0
        rw [if_neg (by rw [hnum]; exact Bool.false_ne_true)] at hr
        refine validate_good isNum rest j _ ?_ r hr
        intro r2 hr2
        rcases List.mem_filter.mp hr2 with ⟨hm, hna⟩
        rcases List.mem_map.mp hm with ⟨r0, hr0, rfl⟩
        simp only [Bool.not_eq_true'] at hna
        refine ⟨?_, hna⟩
        rcases getC_set_self (r := r0) (j := j) (v := coerceCell (getC r0 j)) with h | h
        · rw [h]; exact coerceCell_noStr _
        · rw [h]; rfl

theorem typeTable_noStr {tbl : List (List (Option String))} {ncols j : Nat}
    (h : colNumeric tbl j = true) :
    ∀ r ∈ typeTable tbl ncols, (getC r j).isStr = false := by
  intro r' hr'
  rcases List.mem_map.mp hr' with ⟨r, hr, rfl⟩
  by_cases hj : j < ncols
  · rw [getC, List.getElem?_map, List.getElem?_range hj]
    simp only [Option.map_some', Option.getD_some]
    have hall := List.all_eq_true.mp h r hr
    cases hc : rawC r j with
    | none => simp [typeCell, Cell.isStr]
    | some s =>
        rw [hc] at hall
        simp only at hall
        cases hq : parseNum s with
        | none =>
            rw [hq] at hall
            cases hall
        | some q => simp [typeCell, h, hq, Cell.isStr]
  · rw [getC, List.getElem?_map, List.getElem?_eq_none (by simpa using Nat.le_of_not_lt hj)]
    rfl

theorem matDictRaw_isSome (f : List (List String)) (k : DKey) :
    (matDictRaw f k).isSome = true ↔ ∃ r ∈ matTyped f, dkeyOf 0 1 2 r = k := by
  unfold matDictRaw
  induction matTyped f using List.reverseRecOn with
  | nil => simp
  | append_singleton rs r ih =>
      rw [List.foldl_append]
      simp only [List.foldl_cons, List.foldl_nil, Function.update_apply]
      by_cases hk : k = dkeyOf 0 1 2 r
      · rw [if_pos hk]
        simp only [Option.isSome_some, true_iff]
        exact ⟨r, by simp, hk.symm⟩
      · rw [if_neg hk]
        rw [ih]
        constructor
        · rintro ⟨r0, hr0, hkr⟩
          exact ⟨r0, by simp [hr0], hkr⟩
        · rintro ⟨r0, hr0, hkr⟩
          rcases List.mem_append.mp hr0 with h | h
          · exact ⟨r0, h, hkr⟩
          · rw [List.mem_singleton.mp h] at hkr
            exact absurd hkr.symm hk

theorem countAgg_map_fst (t : List (List Cell)) :
    (countAgg t).map Prod.fst = groupKeys 5 6 7 t := by
  unfold countAgg
  rw [List.map_map]
  exact List.map_id' _

theorem rateAgg_map_fst (t : List (List Cell)) :
    (rateAgg t).map Prod.fst = groupKeys 4 5 6 t := by
  unfold rateAgg
  rw [List.map_map]
  exact List.map_id' _

theorem runCount_ok {rows : List (List String)} {out : List (DKey × Rat)}
    (h : runCount rows = .ok out) : out = countAgg (countValid rows) := by
  unfold runCount at h
  split at h
  · cases h
  · split at h
    · cases h
    · exact (Except.ok.inj h).symm

theorem runRate_ok {rows : List (List String)} {out : List (DKey × Cell)}
    (h : runRate rows = .ok out) : out = rateAgg (rateValid rows) := by
  unfold runRate at h
  split at h
  · cases h
  · split at h
    · cases h
    · exact (Except.ok.inj h).symm

/-- C4 counterexample: the matrix assembler performs no numeric coercion at
all, so the bedgraph row `chr1 <tab> abc <tab> 200 <tab> 0.5`, whose `start`
field cannot be coerced to a number, is not dropped from either pass: its
uncoerced key enters the position universe in Pass 1, and Pass 2's lookup
returns its rate for that key. -/
theorem c4_counterexample :
    matKeysRaw [[["chr1", "abc", "200", "0.5"]]] =
      [⟨Cell.str "chr1", Cell.str "abc", Cell.num 200⟩] ∧
    matDictRaw [["chr1", "abc", "200", "0.5"]]
      ⟨Cell.str "chr1", Cell.str "abc", Cell.num 200⟩ = some (Cell.num (1/2)) :=
  ⟨by with_unfolding_all decide, by with_unfolding_all decide⟩

/-- C4 as amended: the coerce-then-drop policy for unparsable numeric fields
lives only in the region aggregator: after its validation loop, no declared
numeric column retains uncoerced text, and every row surviving a coerced
column holds an actual number there (rows failing coercion were dropped).
The matrix assembler has no such policy: a row is visible to Pass 1's
universe exactly when it is visible to Pass 2's lookup, whatever its fields
hold, so the two passes treat every row (parsable or not) identically. -/
theorem c4_drop_policy (rows : List (List String)) (f : List (List String)) :
    (∀ r ∈ countValid rows, ∀ j ∈ countNumIdx,
      (getC r j).isStr = false ∧
        (colNumeric (selTable countUse rows) j = false → (getC r j).isNa = false)) ∧
    (∀ k : DKey,
      (∃ r ∈ matTyped f, dkeyOf 0 1 2 r = k) ↔ (matDictRaw f k).isSome = true) := by
  constructor
  · intro r hr j hj
    by_cases hn : colNumeric (selTable countUse rows) j = true
    · refine ⟨validate_noStr _ countNumIdx j _ (typeTable_noStr hn) r hr, ?_⟩
      intro hc
      rw [hn] at hc
      cases hc
    · have hgood := validate_processed _ countNumIdx j hj
        (Bool.eq_false_iff.mpr hn) _ r hr
      exact ⟨hgood.1, fun _ => hgood.2⟩
  · intro k
    exact (matDictRaw_isSome f k).symm

/-- C4 amended-claim witness: in a concrete count-mode file whose
`unmeth_count` column holds one unparsable field, the surviving row's
`unmeth_count` cell is a number (neither text nor missing), and in a concrete
matrix file the unparsable row is visible to both passes. -/
theorem c4_witness :
    ((getC [Cell.str "chr1", Cell.num 0, Cell.num 1, Cell.num 3, Cell.num 1,
        Cell.str "chr1", Cell.num 0, Cell.num 1000] 4).isStr = false ∧
      (getC [Cell.str "chr1", Cell.num 0, Cell.num 1, Cell.num 3, Cell.num 1,
        Cell.str "chr1", Cell.num 0, Cell.num 1000] 4).isNa = false) ∧
    (matDictRaw [["chr1", "abc", "200", "0.5"]]
        ⟨Cell.str "chr1", Cell.str "abc", Cell.num 200⟩).isSome = true := by
  constructor
  · have h := (c4_drop_policy
      [["chr1", "0", "1", "0", "3", "1", "chr1", "0", "1000"],
       ["chr1", "1", "2", "0", "2", "x", "chr1", "0", "1000"]] []).1
      [Cell.str "chr1", Cell.num 0, Cell.num 1, Cell.num 3, Cell.num 1,
        Cell.str "chr1", Cell.num 0, Cell.num 1000]
      (by with_unfolding_all decide) 4 (by with_unfolding_all decide)
    exact ⟨h.1, h.2 (by with_unfolding_all decide)⟩
  · exact ((c4_drop_policy [] [["chr1", "abc", "200", "0.5"]]).2
      ⟨Cell.str "chr1", Cell.str "abc", Cell.num 200⟩).mp
      ⟨[Cell.str "chr1", Cell.str "abc", Cell.num 200, Cell.num (1/2)],
        by with_unfolding_all decide, by with_unfolding_all decide⟩

/-- C7: in count mode, every output row's rate is the summed methylated count
of its DMR group divided by the group's total count when that total is
positive, and 0 when the total is 0. -/
theorem c7_count_law (rows : List (List String)) (out : List (DKey × Rat))
    (h : runCount rows = .ok out) (k : DKey) (r : Rat)
    (hmem : (k, r) ∈ out) :
    (0 < sumCol (groupRows 5 6 7 (countValid rows) k) 3 +
        sumCol (groupRows 5 6 7 (countValid rows) k) 4 →
      r = sumCol (groupRows 5 6 7 (countValid rows) k) 3 /
          (sumCol (groupRows 5 6 7 (countValid rows) k) 3 +
            sumCol (groupRows 5 6 7 (countValid rows) k) 4)) ∧
    (sumCol (groupRows 5 6 7 (countValid rows) k) 3 +
        sumCol (groupRows 5 6 7 (countValid rows) k) 4 = 0 →
      r = 0) := by
  rw [runCount_ok h] at hmem
  unfold countAgg at hmem
  rcases List.mem_map.mp hmem with ⟨k0, -, hpair⟩
  simp only [Prod.mk.injEq] at hpair
  obtain ⟨hk0, hr⟩ := hpair
  rw [hk0] at hr
  by_cases hpos : 0 < sumCol (groupRows 5 6 7 (countValid rows) k) 3 +
      sumCol (groupRows 5 6 7 (countValid rows) k) 4
  · rw [if_pos hpos] at hr
    refine ⟨fun _ => hr.symm, fun h0 => ?_⟩
    rw [h0] at hpos
    exact absurd hpos (lt_irrefl 0)
  · rw [if_neg hpos] at hr
    exact ⟨fun hp => absurd hp hpos, fun _ => hr.symm⟩

/-- C7 witness: the spec's concrete count scenario, two rows with counts
(3,1) and (1,5) in one DMR, evaluated through the full pipeline: the output
rate 2/5 equals summed M = 4 over summed total = 10. -/
theorem c7_witness :
    (2/5 : Rat) =
      sumCol (groupRows 5 6 7 (countValid
        [["chr1", "0", "1", "0", "3", "1", "chr1", "0", "1000"],
         ["chr1", "1", "2", "0", "1", "5", "chr1", "0", "1000"]])
        ⟨Cell.str "chr1", Cell.num 0, Cell.num 1000⟩) 3 /
      (sumCol (groupRows 5 6 7 (countValid
        [["chr1", "0", "1", "0", "3", "1", "chr1", "0", "1000"],
         ["chr1", "1", "2", "0", "1", "5", "chr1", "0", "1000"]])
        ⟨Cell.str "chr1", Cell.num 0, Cell.num 1000⟩) 3 +
       sumCol (groupRows 5 6 7 (countValid
        [["chr1", "0", "1", "0", "3", "1", "chr1", "0", "1000"],
         ["chr1", "1", "2", "0", "1", "5", "chr1", "0", "1000"]])
        ⟨Cell.str "chr1", Cell.num 0, Cell.num 1000⟩) 4) :=
  (c7_count_law
    [["chr1", "0", "1", "0", "3", "1", "chr1", "0", "1000"],
     ["chr1", "1", "2", "0", "1", "5", "chr1", "0", "1000"]]
    [(⟨Cell.str "chr1", Cell.num 0, Cell.num 1000⟩, 2/5)]
    (by with_unfolding_all decide)
    ⟨Cell.str "chr1", Cell.num 0, Cell.num 1000⟩ (2/5)
    (by with_unfolding_all decide)).1
    (by with_unfolding_all decide)

/-- C8 counterexample: a count-mode record with no enclosing DMR key (a short
row carrying only chromosome, coordinates and counts) is not treated as an
input-format error: the run succeeds, and the record's counts (2 and 7)
reach no group — `groupby` silently dropped the `NaN`-keyed row. -/
theorem c8_counterexample :
    runCount [["chr1", "0", "1", "0", "3", "1", "chr1", "0", "1000"],
              ["chr1", "1", "2", "0", "2", "7"]] =
      .ok [(⟨Cell.str "chr1", Cell.num 0, Cell.num 1000⟩, 3/4)] := by
  with_unfolding_all decide

/-- C8 as amended: a record lacking the DMR columns is `NaN`-padded and then
silently excluded from the aggregation (no output group carries a missing key
component); the run only fails as a format error when the whole file is too
narrow for the `usecols` of count mode (every row lacks the DMR columns). -/
theorem c8_na_key_policy (rows : List (List String)) :
    (∀ out, runCount rows = .ok out →
      ∀ k ∈ out.map Prod.fst, DKey.ok k = true) ∧
    (fileWidth rows < 9 → ∃ e, runCount rows = .error e) := by
  constructor
  · intro out hout k hk
    rw [runCount_ok hout, countAgg_map_fst] at hk
    unfold groupKeys at hk
    rw [List.mem_insertionSort, List.mem_dedup] at hk
    exact (List.mem_filter.mp hk).2
  · intro hw
    by_cases hemp : rows.isEmpty = true
    · exact ⟨.emptyData, by unfold runCount; rw [if_pos hemp]⟩
    · refine ⟨.badUsecols, ?_⟩
      unfold runCount
      rw [if_neg hemp, if_pos]
      refine List.any_eq_true.mpr ⟨8, by simp [countUse], ?_⟩
      simp only [decide_eq_true_eq]
      omega

/-- C8 amended-claim witness: in the concrete mixed run, the single output
key has all three components present, and a uniformly short file fails. -/
theorem c8_witness :
    DKey.ok ⟨Cell.str "chr1", Cell.num 0, Cell.num 1000⟩ = true ∧
    ∃ e, runCount [["chr1", "10", "20", "0", "3", "1"]] = .error e := by
  constructor
  · exact (c8_na_key_policy
      [["chr1", "0", "1", "0", "3", "1", "chr1", "0", "1000"],
       ["chr1", "1", "2", "0", "2", "7"]]).1
      [(⟨Cell.str "chr1", Cell.num 0, Cell.num 1000⟩, 3/4)]
      (by with_unfolding_all decide)
      ⟨Cell.str "chr1", Cell.num 0, Cell.num 1000⟩
      (by with_unfolding_all decide)
  · exact (c8_na_key_policy [["chr1", "10", "20", "0", "3", "1"]]).2
      (by with_unfolding_all decide)

/-- C9 counterexample: a count-mode file of exactly 8 tab-delimited columns is
not consumed at all: `usecols=[0,1,2,4,5,6,7,8]` points past its last column
and the run fails, because count mode in fact expects at least 9 columns and
skips the fourth. -/
theorem c9_counterexample :
    runCount [["chr1", "0", "10", "5", "3", "chr1", "0", "100"]] =
      .error .badUsecols := by
  with_unfolding_all decide

/-- C9 as amended: count mode consumes files of at least nine columns and its
output depends only on file positions 0-2 and 4-8 (the 8 selected columns):
two files of width at least nine agreeing on those positions — whatever their
fourth columns or columns beyond the ninth hold — produce identical runs. -/
theorem c9_used_columns (rows rows' : List (List String))
    (hw : 9 ≤ fileWidth rows) (hw' : 9 ≤ fileWidth rows')
    (hlen : rows.length = rows'.length)
    (hsel : selTable countUse rows = selTable countUse rows') :
    runCount rows = runCount rows' := by
  unfold runCount
  have hemp : rows.isEmpty = rows'.isEmpty := by
    cases rows with
    | nil =>
        cases rows' with
        | nil => rfl
        | cons b m => simp at hlen
    | cons a l =>
        cases rows' with
        | nil => simp at hlen
        | cons b m => rfl
  have hcond : ∀ w : List (List String), 9 ≤ fileWidth w →
      (countUse.any (fun i => fileWidth w ≤ i)) = false := by
    intro w hww
    rw [List.any_eq_false]
    intro i hi
    simp only [decide_eq_true_eq]
    intro hc
    simp only [countUse, List.mem_cons, List.not_mem_nil, or_false] at hi
    omega
  rw [hemp, hcond rows hw, hcond rows' hw']
  unfold countValid
  rw [hsel]

/-- C9 amended-claim witness: replacing the skipped fourth column and adding a
tenth column leaves the run unchanged. -/
theorem c9_witness :
    runCount [["chr1", "0", "1", "SKIPPED", "3", "1", "chr1", "0", "1000"]] =
      runCount [["chr1", "0", "1", "777", "3", "1", "chr1", "0", "1000", "extra"]] :=
  c9_used_columns
    [["chr1", "0", "1", "SKIPPED", "3", "1", "chr1", "0", "1000"]]
    [["chr1", "0", "1", "777", "3", "1", "chr1", "0", "1000", "extra"]]
    (by with_unfolding_all decide) (by with_unfolding_all decide)
    rfl (by with_unfolding_all decide)

/-- C10: in both modes the aggregator's output rows are sorted ascending by
the DMR key — `chr_dmr`, then `start_dmr`, then `end_dmr` — by `groupby`'s
default `sort=True`, even though the spec leaves the order arbitrary. -/
theorem c10_output_sorted (rows : List (List String)) :
    (∀ out, runCount rows = .ok out → (out.map Prod.fst).Chain' dkeyLE) ∧
    (∀ out, runRate rows = .ok out → (out.map Prod.fst).Chain' dkeyLE) := by
  haveI : IsTotal DKey dkeyLE := ⟨dkeyLE_total⟩
  haveI : IsTrans DKey dkeyLE := ⟨fun _ _ _ => dkeyLE_trans⟩
  constructor
  · intro out hout
    rw [runCount_ok hout, countAgg_map_fst]
    exact List.Pairwise.chain' (List.sorted_insertionSort dkeyLE _)
  · intro out hout
    rw [runRate_ok hout, rateAgg_map_fst]
    exact List.Pairwise.chain' (List.sorted_insertionSort dkeyLE _)

/-- C10 witness: a concrete three-row rate-mode file with two DMRs listed out
of order comes out sorted, as does a concrete count-mode run. -/
theorem c10_witness :
    (([(⟨Cell.str "chr1", Cell.num 0, Cell.num 1000⟩, (3/4 : Rat))] :
        List (DKey × Rat)).map Prod.fst).Chain' dkeyLE ∧
    (([(⟨Cell.str "chr1", Cell.num 0, Cell.num 1000⟩, Cell.num (7/20)),
       (⟨Cell.str "chr1", Cell.num 5, Cell.num 500⟩, Cell.num (3/5))] :
        List (DKey × Cell)).map Prod.fst).Chain' dkeyLE := by
  constructor
  · exact (c10_output_sorted
      [["chr1", "0", "1", "0", "3", "1", "chr1", "0", "1000"],
       ["chr1", "1", "2", "0", "2", "7"]]).1
      [(⟨Cell.str "chr1", Cell.num 0, Cell.num 1000⟩, 3/4)]
      (by with_unfolding_all decide)
  · exact (c10_output_sorted
      [["chr1", "10", "11", "0.2", "chr1", "0", "1000"],
       ["chr1", "20", "21", "0.6", "chr1", "5", "500"],
       ["chr1", "5", "6", "0.5", "chr1", "0", "1000"]]).2
      [(⟨Cell.str "chr1", Cell.num 0, Cell.num 1000⟩, Cell.num (7/20)),
       (⟨Cell.str "chr1", Cell.num 5, Cell.num 500⟩, Cell.num (3/5))]
      (by with_unfolding_all decide)

end MethMatrix

